import Mathlib

/-!
Verification of the MeshCoreTel native visualizer client
(`native/main.cpp`, the nlohmann-json SDL client that the build scripts
compile and run; the older `native/linux` jsmn variant differs in a few
details noted inline).

Shallow embedding conventions:
* Machine integers (`int`, `size_t`, `uint64_t`, `uint32_t`) are `Int`/`Nat`
  with explicit `% 2^w` where wraparound matters (`wrapSub`, the LCG).
* `double`/`float` geographic math is modelled over `ℝ`.  Animation
  durations are `float`s in the source but every value the program ever
  stores in them (1200, 800, `n * 250`, plus 500/1500 in the sweep) is a
  small integer, exactly representable in `float`, so they are `Nat` here.
* Parsed JSON payloads (nlohmann DOM values) are modelled by the `Json`
  inductive; the handlers are embedded at the DOM level, and the envelope
  handler `handleSseMessage`, which works directly on the payload string
  in the source, is embedded at the string level with the nested payload
  parser abstracted as a `String → Option Json` argument.
* `std::unordered_map<int, size_t>` is modelled as an association list
  with map (replace-on-insert) semantics.
* `std::deque` front/back become list head/last.
-/

namespace MeshViz

/-- DOM value of a parsed JSON payload (model of the vendored nlohmann
`json` value used by `main.cpp`; the library header is not part of the
repository sources).  Numeric payload fields relevant to the program are
integral hashes read with `get<int>()`, so numbers carry an `Int`. -/
inductive Json where
  | null : Json
  | bool (b : Bool) : Json
  | num (n : Int) : Json
  | str (s : String) : Json
  | arr (elems : List Json) : Json
  | obj (fields : List (String × Json)) : Json

/-- Field lookup on an object DOM value (`json::find`); `none` on
non-objects and missing keys. -/
def Json.find : Json → String → Option Json
  | .obj fields, key => (fields.find? (fun kv => kv.1 = key)).map (fun kv => kv.2)
  | _, _ => none

/-- `JsonGetString`: the value of a string-typed field, `""` when the key
is absent or the value is not a string. -/
def jsonGetString (root : Json) (key : String) : String :=
  match root.find key with
  | some (.str s) => s
  | _ => ""

/-- `struct Node` from `main.cpp`. -/
structure Node where
  id : Int := 0
  node_hash : Int := 0
  lat : ℝ := 0
  lon : ℝ := 0
  has_position : Bool := false
  is_room_server : Bool := false
  is_repeater : Bool := false
  is_chat_node : Bool := false
  is_sensor : Bool := false
  name : String := ""
  public_key_hex : String := ""

/-- `struct PacketMessage`. -/
structure PacketMessage where
  text : String
  timestamp_ms : Nat

/-- `struct MovingPulse`; `start`/`endp` are the projected world-pixel
coordinates (the C++ field `end` is a Lean keyword). -/
structure MovingPulse where
  start : ℝ × ℝ
  endp : ℝ × ℝ
  start_time_ms : Nat
  duration_ms : Nat := 1200

/-- RGBA color (`SDL_Color`). -/
structure Color where
  r : Nat
  g : Nat
  b : Nat
  a : Nat

/-- `struct PathAnimation`.  `width` is a `float` taking only the values
2.0 and 3.5, modelled exactly in `ℚ`. -/
structure PathAnimation where
  points : List (ℝ × ℝ)
  start_time_ms : Nat
  duration_ms : Nat := 1500
  color : Color := ⟨0, 255, 234, 255⟩
  width : ℚ := 2

/-- `struct AppState`.  `prop_seed` models the function-local
`static uint32_t seed` of `HandlePropagationMessage` (zero until first
use, exactly as the static is zero-initialized). -/
structure AppState where
  nodes : List Node
  node_hash_index : List (Int × Nat)
  packet_messages : List PacketMessage
  pulses : List MovingPulse
  paths : List PathAnimation
  connection_status : String
  last_update : String
  selected_node_index : Int
  animations_enabled : Bool
  prop_seed : Nat

/-- The default-constructed `AppState` built in `main`. -/
def initialState : AppState :=
  { nodes := []
  , node_hash_index := []
  , packet_messages := []
  , pulses := []
  , paths := []
  , connection_status := "Initializing..."
  , last_update := "Never"
  , selected_node_index := -1
  , animations_enabled := true
  , prop_seed := 0 }

/-! ### The node directory (`std::unordered_map<int, size_t>`) -/

/-- Map lookup (`unordered_map::find`). -/
def mapFind : List (Int × Nat) → Int → Option Nat
  | [], _ => none
  | (k', v') :: rest, k => if k' = k then some v' else mapFind rest k

/-- Map store (`map[k] = v`): replaces the binding for `k` if present,
otherwise appends a fresh one. -/
def mapInsert : List (Int × Nat) → Int → Nat → List (Int × Nat)
  | [], k, v => [(k, v)]
  | (k', v') :: rest, k, v =>
      if k' = k then (k, v) :: rest else (k', v') :: mapInsert rest k v

/-- Loop body of `UpdateNodeIndex`: walk the node list with its running
index, recording every non-zero hash. -/
def updateNodeIndexAux : List Node → Nat → List (Int × Nat) → List (Int × Nat)
  | [], _, m => m
  | n :: rest, i, m =>
      updateNodeIndexAux rest (i + 1)
        (if n.node_hash ≠ 0 then mapInsert m n.node_hash i else m)

/-- `UpdateNodeIndex`: wholesale rebuild of the hash → index directory
(the source clears the map and repopulates it from the node list). -/
def updateNodeIndex (nodes : List Node) : List (Int × Nat) :=
  updateNodeIndexAux nodes 0 []

/-- Node-list replacement performed by `FetchNodesLoop` when a non-empty
parse result arrives: replace the list, rebuild the directory, stamp
`last_update` — all inside one critical section. -/
def applyNodesUpdate (timeStr : String) (s : AppState) (nodes : List Node) : AppState :=
  { s with nodes := nodes
         , node_hash_index := updateNodeIndex nodes
         , last_update := timeStr }

/-- Reference function: the index of the last node (in input order,
counting from offset `i`) whose hash equals `k ≠ 0`. -/
def lastHashIdxFrom (k : Int) : List Node → Nat → Option Nat
  | [], _ => none
  | n :: rest, i =>
      match lastHashIdxFrom k rest (i + 1) with
      | some j => some j
      | none => if n.node_hash = k ∧ k ≠ 0 then some i else none

/-! ### Coordinate projection -/

/-- `kTileSize` (256), `kDefaultZoom` (10). -/
def kTileSize : ℝ := 256

def kDefaultZoom : ℤ := 10

/-- `DegToRad`. -/
noncomputable def degToRad (deg : ℝ) : ℝ := deg * Real.pi / 180

/-- `LatLonToTile`: spherical Web-Mercator, fractional tile coordinates.
`std::pow(2.0, zoom)` on an `int` zoom is `(2 : ℝ) ^ (zoom : ℤ)`. -/
noncomputable def latLonToTile (lat lon : ℝ) (zoom : ℤ) : ℝ × ℝ :=
  let n : ℝ := 2 ^ zoom
  let latRad := degToRad lat
  ((lon + 180) / 360 * n,
   (1 - Real.log (Real.tan latRad + 1 / Real.cos latRad) / Real.pi) / 2 * n)

/-- `LatLonToWorldPixel`: tile coordinates scaled by the tile size. -/
noncomputable def latLonToWorldPixel (lat lon : ℝ) (zoom : ℤ) : ℝ × ℝ :=
  let t := latLonToTile lat lon zoom
  (t.1 * kTileSize, t.2 * kTileSize)

/-- Modelled from the spec: the inverse Web-Mercator projection used by
the round-trip property ("projecting a node's (lat, lon) then
inverse-projecting at the same zoom recovers the original coordinates").
No inverse projection exists in the sources; this is the standard
inverse of the projection formulas quoted by the spec. -/
noncomputable def worldPixelToLatLon (x y : ℝ) (zoom : ℤ) : ℝ × ℝ :=
  let n : ℝ := 2 ^ zoom
  let tx := x / kTileSize
  let ty := y / kTileSize
  (Real.arctan (Real.sinh (Real.pi * (1 - 2 * ty / n))) * 180 / Real.pi,
   tx / n * 360 - 180)

/-! ### Node resolution -/

/-- Uppercase hex digit of a value below 16. -/
def hexDigitUpper (n : Nat) : Char :=
  if n < 10 then Char.ofNat (48 + n) else Char.ofNat (55 + n)

/-- Uppercase hexadecimal digits of a natural number (most significant
first), as produced by `std::uppercase << std::hex`. -/
def natToHexUpper (n : Nat) : List Char :=
  if _h : n < 16 then [hexDigitUpper n]
  else natToHexUpper (n / 16) ++ [hexDigitUpper (n % 16)]
  decreasing_by exact Nat.div_lt_self (by omega) (by omega)

/-- Hex rendering of a C++ `int` inserted with `std::hex`: iostreams
format the corresponding 32-bit unsigned (two's-complement) value. -/
def intHexUpper (n : Int) : String :=
  String.mk (natToHexUpper ((n % (2 ^ 32)).toNat))

/-- `FindNodeByPublicKeyPrefix` (name shortened: Lean's checker reserves
the suffix): first node whose non-empty `public_key_hex` starts, case
insensitively, with the given token; `none` on an empty token. -/
def findNodeByPublicKeyPfx (nodes : List Node) (pfx : String) : Option Node :=
  if pfx = "" then none
  else
    let needle := pfx.toUpper
    nodes.find? (fun n =>
      !(n.public_key_hex == "") && n.public_key_hex.toUpper.startsWith needle)

/-- `FindNodeByPropagationToken`: first node matched either by public-key
hex or by the uppercase hex rendering of its non-zero hash. -/
def findNodeByPropagationToken (nodes : List Node) (token : String) : Option Node :=
  if token = "" then none
  else
    let needle := token.toUpper
    nodes.find? (fun n =>
      (!(n.public_key_hex == "") && n.public_key_hex.toUpper.startsWith needle) ||
      (!(n.node_hash == 0) && (intHexUpper n.node_hash).startsWith needle))

/-- Directory lookup followed by the node-list access
`&state.nodes[it->second]`; the source access is unchecked, which is
safe under the directory invariant (claim C10) — the model makes the
bounds check explicit via `get?`. -/
def nodeByHash (s : AppState) (h : Int) : Option Node :=
  (mapFind s.node_hash_index h).bind (fun i => s.nodes.get? i)

/-! ### Packet-payload handling (`HandlePacketMessage`, DOM level) -/

/-- Sender-name fallback chain of `HandlePacketMessage`:
`sender_name`, then `group_sender_name`, then `advert_name`,
defaulting to `"unknown"`. -/
def packetSender (root : Json) : String :=
  let s0 := jsonGetString root "sender_name"
  let s1 := if s0 = "" then jsonGetString root "group_sender_name" else s0
  let s2 := if s1 = "" then jsonGetString root "advert_name" else s1
  if s2 = "" then "unknown" else s2

/-- `origin` with the `"unknown"` default. -/
def packetOrigin (root : Json) : String :=
  let o := jsonGetString root "origin"
  if o = "" then "unknown" else o

/-- The formatted log line: `"<time> <DIRECTION>: <sender> -> <origin>"`
with the time and direction segments omitted when empty, and the
direction uppercased (`std::toupper` per character; `String.toUpper`
agrees on ASCII). -/
def formatPacketLine (timeStr direction sender origin : String) : String :=
  (if timeStr = "" then "" else timeStr ++ " ") ++
  (if direction = "" then "" else direction.toUpper ++ ": ") ++
  sender ++ " -> " ++ origin

/-- The eviction loop `while (size > kMaxPacketMessages) pop_back()`. -/
def trimPacketMessages (l : List PacketMessage) : List PacketMessage :=
  if 5 < l.length then trimPacketMessages l.dropLast else l
  termination_by l.length
  decreasing_by
    simp only [List.length_dropLast]
    omega

/-- Pulse endpoint resolution of `HandlePacketMessage`: `src_hash` and
`dst_hash` must both be present and of the same kind — both numbers
(directory lookup) or both strings (public-key prefix match); any other
combination resolves nothing. -/
def packetEndpoints (s : AppState) (root : Json) : Option Node × Option Node :=
  match root.find "src_hash", root.find "dst_hash" with
  | some sv, some dv =>
    match sv, dv with
    | .num a, .num b => (nodeByHash s a, nodeByHash s b)
    | .str a, .str b => (findNodeByPublicKeyPfx s.nodes a, findNodeByPublicKeyPfx s.nodes b)
    | _, _ => (none, none)
  | _, _ => (none, none)

/-- The pulse built from two resolved, position-valid nodes. -/
noncomputable def mkPulse (a b : Node) (now : Nat) : MovingPulse :=
  { start := latLonToWorldPixel a.lat a.lon kDefaultZoom
  , endp := latLonToWorldPixel b.lat b.lon kDefaultZoom
  , start_time_ms := now
  , duration_ms := 1200 }

/-- `HandlePacketMessage` on a parsed payload DOM (the guards on the raw
string and the parse itself live in `handlePacketStr`): format and push
the log line, trim the log to 5 entries, then append a pulse iff both
endpoints resolve to position-valid nodes.  `now` is `NowMs()`, and
`timeStr` is `FormatTimeNow()`. -/
noncomputable def handlePacketMessage (now : Nat) (timeStr : String)
    (s : AppState) (root : Json) : AppState :=
  match root with
  | .obj _ =>
    let direction := jsonGetString root "direction"
    let sender := packetSender root
    let origin := packetOrigin root
    let line := formatPacketLine timeStr direction sender origin
    let s1 := { s with packet_messages :=
                  trimPacketMessages (⟨line, now⟩ :: s.packet_messages) }
    -- the source resolves after the log push; resolution reads only
    -- `nodes` and `node_hash_index`, which the push leaves untouched
    match packetEndpoints s root with
    | (some a, some b) =>
      if a.has_position && b.has_position
      then { s1 with pulses := s1.pulses ++ [mkPulse a b now] }
      else s1
    | _ => s1
  | _ => s

/-! ### Propagation-payload handling (`HandlePropagationMessage`) -/

/-- The fixed palette. -/
def palette : List Color :=
  [ ⟨59, 130, 246, 255⟩    -- blue
  , ⟨250, 204, 21, 255⟩    -- yellow
  , ⟨16, 185, 129, 255⟩    -- green
  , ⟨239, 68, 68, 255⟩     -- red
  , ⟨139, 92, 246, 255⟩    -- purple
  , ⟨6, 182, 212, 255⟩     -- cyan
  , ⟨249, 115, 22, 255⟩ ]  -- orange

/-- The linear congruential step `seed * 1664525 + 1013904223` on
`uint32_t`. -/
def lcgNext (seed : Nat) : Nat := (seed * 1664525 + 1013904223) % (2 ^ 32)

/-- Seed initialization: the function-local static starts at zero and is
set from the clock (`static_cast<uint32_t>(NowMs())`) on first use. -/
def propSeedInit (seed now : Nat) : Nat :=
  if seed = 0 then now % (2 ^ 32) else seed

/-- Per-entry resolution of a `path.nodes` element: numeric hashes go
through the directory, strings through the propagation-token matcher. -/
def resolvePropNode (s : AppState) (v : Json) : Option Node :=
  match v with
  | .num h => nodeByHash s h
  | .str tok => findNodeByPropagationToken s.nodes tok
  | _ => none

/-- The resolved, position-valid nodes of a `path.nodes` array,
in input order (unresolved or position-less entries skipped). -/
def resolvedNodes (s : AppState) (vals : List Json) : List Node :=
  vals.filterMap (fun v =>
    (resolvePropNode s v).bind (fun n =>
      if n.has_position then some n else none))

/-- The projected points the loop accumulates into `anim.points`. -/
noncomputable def propPoints (s : AppState) (vals : List Json) : List (ℝ × ℝ) :=
  (resolvedNodes s vals).map (fun n => latLonToWorldPixel n.lat n.lon kDefaultZoom)

/-- `HandlePropagationMessage` on a parsed payload DOM: require
`type == "propagation.path"`, an object `path` with an array `nodes` of
length ≥ 2; resolve and project the entries; append a `PathAnimation`
iff at least two points resolved.  The duration is computed from the
length of the *input* array (set before the resolution loop). -/
noncomputable def handlePropagationMessage (now : Nat) (s : AppState)
    (root : Json) : AppState :=
  match root with
  | .obj _ =>
    if jsonGetString root "type" = "propagation.path" then
      match root.find "path" with
      | some (.obj pf) =>
        match (Json.obj pf).find "nodes" with
        | some (.arr vals) =>
          if vals.length < 2 then s
          else
            let pts := propPoints s vals
            if 2 ≤ pts.length then
              let seed1 := lcgNext (propSeedInit s.prop_seed now)
              let anim : PathAnimation :=
                { points := pts
                , start_time_ms := now
                , duration_ms := max 800 (vals.length * 250)
                , color := palette.getD (seed1 % 7) ⟨0, 255, 234, 255⟩
                , width := 7 / 2 }
              { s with paths := s.paths ++ [anim], prop_seed := seed1 }
            else s
        | _ => s
      | _ => s
    else s
  | _ => s

/-! ### SSE envelope handling (string level) -/

/-- The double-quote character (named to keep literals readable). -/
def quoteChar : Char := Char.ofNat 34

/-- The backslash character. -/
def backslashChar : Char := Char.ofNat 92

/-- The opening-brace character. -/
def openBraceChar : Char := Char.ofNat 123

/-- `LooksLikeJsonObject`: the first non-whitespace character is an
opening brace. -/
def looksLikeJsonObject (s : String) : Bool :=
  match s.data.dropWhile (fun c => c = ' ' || c = '\n' || c = '\r' || c = '\t') with
  | [] => false
  | c :: _ => c = openBraceChar

/-- The suffix that follows the first occurrence of `pat`
(`std::string::find` + advance past the match); `none` when absent. -/
def afterFirst (pat : List Char) : List Char → Option (List Char)
  | [] => if pat.isEmpty then some [] else none
  | c :: rest =>
      if pat.isPrefixOf (c :: rest) then some ((c :: rest).drop pat.length)
      else afterFirst pat rest

/-- The value-scanning loop of `ExtractJsonStringField`: characters up to
the first unescaped closing quote (an escape copies the next character
verbatim); a missing closing quote simply ends the scan. -/
def readQuotedValue (esc : Bool) : List Char → List Char
  | [] => []
  | c :: rest =>
      if esc then c :: readQuotedValue false rest
      else if c = backslashChar then readQuotedValue true rest
      else if c = quoteChar then []
      else c :: readQuotedValue false rest

/-- `ExtractJsonStringField`: locate `"key"`, then the next `:`, skip
whitespace, require an opening quote, and scan the value; every failure
returns the empty string. -/
def extractJsonStringField (input : String) (key : String) : String :=
  let pat := (quoteChar :: key.data) ++ [quoteChar]
  match afterFirst pat input.data with
  | none => ""
  | some rest1 =>
    match afterFirst [':'] rest1 with
    | none => ""
    | some rest2 =>
      match rest2.dropWhile (fun c => c = ' ' || c = '\t' || c = '\r' || c = '\n') with
      | [] => ""
      | c :: rest3 =>
          if c = quoteChar then String.mk (readQuotedValue false rest3) else ""

/-- Character loop of `UnescapeJsonString`: `\n`, `\r`, `\t` become
control characters, any other escaped character (including `\\` and
`\"`) is copied verbatim. -/
def unescapeChars (esc : Bool) : List Char → List Char
  | [] => []
  | c :: rest =>
      if esc then
        (if c = 'n' then '\n' else if c = 'r' then '\r' else if c = 't' then '\t' else c)
          :: unescapeChars false rest
      else if c = backslashChar then unescapeChars true rest
      else c :: unescapeChars false rest

/-- `UnescapeJsonString`. -/
def unescapeJsonString (s : String) : String :=
  String.mk (unescapeChars false s.data)

/-- String-level guards of `HandlePacketMessage` (size cap, brace sniff)
followed by the parse; `parse` abstracts `json::parse` (the vendored
nlohmann parser; `none` models a discarded parse result). -/
noncomputable def handlePacketStr (parse : String → Option Json) (now : Nat)
    (timeStr : String) (s : AppState) (payload : String) : AppState :=
  if 1024 * 1024 < payload.utf8ByteSize || !looksLikeJsonObject payload then s
  else
    match parse payload with
    | some root => handlePacketMessage now timeStr s root
    | none => s

/-- String-level guards of `HandlePropagationMessage` followed by the
parse. -/
noncomputable def handlePropagationStr (parse : String → Option Json) (now : Nat)
    (s : AppState) (payload : String) : AppState :=
  if 1024 * 1024 < payload.utf8ByteSize || !looksLikeJsonObject payload then s
  else
    match parse payload with
    | some root => handlePropagationMessage now s root
    | none => s

/-- `HandleSseMessage`: dispatch on the string-extracted `type` field.
Note that the envelope is *not* parsed as JSON — fields are pulled by
string search — so only the size cap and the brace sniff guard it. -/
noncomputable def handleSseMessage (parse : String → Option Json) (now : Nat)
    (timeStr : String) (s : AppState) (msg : String) : AppState :=
  if 1024 * 1024 < msg.utf8ByteSize || !looksLikeJsonObject msg then s
  else
    let ty := extractJsonStringField msg "type"
    if ty = "statusUpdate" ∨ ty = "connected" then
      let status := unescapeJsonString (extractJsonStringField msg "connectionStatus")
      if status = "" then s else { s with connection_status := status }
    else if ty = "ping" then
      { s with last_update := timeStr }
    else if ty = "packet" ∨ ty = "propagation" then
      let data := unescapeJsonString (extractJsonStringField msg "data")
      if data = "" then s
      else
        let s1 := if ty = "packet" then handlePacketStr parse now timeStr s data
                  else handlePropagationStr parse now s data
        { s1 with last_update := timeStr }
    else s

/-! ### Sweep and the state-mutation step relation -/

/-- `2 ^ 64`, the modulus of `uint64_t` arithmetic. -/
def u64 : Nat := 2 ^ 64

/-- `uint64_t` subtraction `a - b` (wraparound semantics). -/
def wrapSub (a b : Nat) : Nat := (a % u64 + (u64 - b % u64)) % u64

/-- Pulse sweep (`remove_if` over `now - start > duration + 500`); the
`float` sum `duration_ms + 500.0f` is exact for every duration the
program produces. -/
def sweepPulses (now : Nat) (ps : List MovingPulse) : List MovingPulse :=
  ps.filter (fun p => decide (wrapSub now p.start_time_ms ≤ p.duration_ms + 500))

/-- Path-animation sweep (`now - start > duration + 1500`). -/
def sweepPaths (now : Nat) (ps : List PathAnimation) : List PathAnimation :=
  ps.filter (fun p => decide (wrapSub now p.start_time_ms ≤ p.duration_ms + 1500))

/-- The per-frame sweep executed under the state lock in `main`. -/
def sweepState (now : Nat) (s : AppState) : AppState :=
  { s with pulses := sweepPulses now s.pulses
         , paths := sweepPaths now s.paths }

/-- Every mutation of the shared `AppState` (each runs inside the single
state mutex): SSE dispatch, the poller's node replacement, the sweep,
the `A`-key animation toggle and the mouse-click selection (the click's
hit-test result is abstracted as an arbitrary new index — it writes no
other field).  `t` is the `NowMs()` clock at which the mutation runs.
Pulse/path creation inside the SSE dispatch is the only insertion into
the animation lists and the sweep the only removal. -/
inductive Step : Nat → AppState → AppState → Prop where
  | sse (t : Nat) (s : AppState) (parse : String → Option Json)
      (timeStr msg : String) :
      Step t s (handleSseMessage parse t timeStr s msg)
  | fetchNodes (t : Nat) (s : AppState) (timeStr : String) (nodes : List Node)
      (hne : nodes ≠ []) :
      Step t s (applyNodesUpdate timeStr s nodes)
  | sweep (t : Nat) (s : AppState) :
      Step t s (sweepState t s)
  | toggleAnimations (t : Nat) (s : AppState) :
      Step t s { s with animations_enabled := !s.animations_enabled }
  | select (t : Nat) (s : AppState) (i : Int) :
      Step t s { s with selected_node_index := i }

/-- A run of mutations with a nondecreasing `uint64_t` clock
(`SDL_GetTicks64` is monotone and far from wraparound), from state `s₀`
at time `t₀` to state `s₁` at time `t₁`. -/
inductive Trace : Nat → AppState → Nat → AppState → Prop where
  | refl (t : Nat) (s : AppState) : Trace t s t s
  | step {t₀ t₁ t₂ : Nat} {s₀ s₁ s₂ : AppState} :
      Trace t₀ s₀ t₁ s₁ → t₁ ≤ t₂ → t₂ < u64 → Step t₂ s₁ s₂ →
      Trace t₀ s₀ t₂ s₂

/-! ### Lemmas: the directory rebuild -/

theorem mapInsert_cons_self (k : Int) (v v0 : Nat) (rest : List (Int × Nat)) :
    mapInsert ((k, v0) :: rest) k v = (k, v) :: rest := by
  simp [mapInsert]

theorem mapInsert_cons_of_ne (k0 k : Int) (h : k0 ≠ k) (v v0 : Nat)
    (rest : List (Int × Nat)) :
    mapInsert ((k0, v0) :: rest) k v = (k0, v0) :: mapInsert rest k v := by
  simp [mapInsert, h]

theorem mapFind_mapInsert (m : List (Int × Nat)) (k : Int) (v : Nat) (k' : Int) :
    mapFind (mapInsert m k v) k' = if k = k' then some v else mapFind m k' := by
  induction m with
  | nil => simp [mapInsert, mapFind]
  | cons kv rest ih =>
    obtain ⟨k0, v0⟩ := kv
    by_cases h0 : k0 = k
    · subst h0
      rw [mapInsert_cons_self]
      simp only [mapFind]
      by_cases h1 : k0 = k'
      · simp [h1]
      · simp [h1]
    · rw [mapInsert_cons_of_ne k0 k h0]
      simp only [mapFind]
      by_cases h1 : k0 = k'
      · subst h1
        have h2 : ¬ (k = k0) := fun hx => h0 hx.symm
        simp [h2]
      · simp [h1, ih]

theorem mem_keys_mapInsert (m : List (Int × Nat)) (k : Int) (v : Nat) (k' : Int) :
    k' ∈ (mapInsert m k v).map Prod.fst ↔ k' = k ∨ k' ∈ m.map Prod.fst := by
  induction m with
  | nil => simp [mapInsert]
  | cons kv rest ih =>
    obtain ⟨k0, v0⟩ := kv
    by_cases h0 : k0 = k
    · subst h0
      rw [mapInsert_cons_self]
      simp only [List.map_cons, List.mem_cons]
      tauto
    · rw [mapInsert_cons_of_ne k0 k h0]
      simp only [List.map_cons, List.mem_cons, ih]
      tauto

theorem nodup_keys_mapInsert (m : List (Int × Nat)) (k : Int) (v : Nat)
    (h : (m.map Prod.fst).Nodup) : ((mapInsert m k v).map Prod.fst).Nodup := by
  induction m with
  | nil => simp [mapInsert]
  | cons kv rest ih =>
    obtain ⟨k0, v0⟩ := kv
    simp only [List.map_cons, List.nodup_cons] at h
    by_cases h0 : k0 = k
    · subst h0
      rw [mapInsert_cons_self]
      simp only [List.map_cons, List.nodup_cons]
      exact h
    · rw [mapInsert_cons_of_ne k0 k h0]
      simp only [List.map_cons, List.nodup_cons]
      refine ⟨?_, ih h.2⟩
      rw [mem_keys_mapInsert]
      rintro (rfl | hk)
      · exact h0 rfl
      · exact h.1 hk

theorem nodup_keys_updateNodeIndexAux (nodes : List Node) (i : Nat)
    (m : List (Int × Nat)) (h : (m.map Prod.fst).Nodup) :
    ((updateNodeIndexAux nodes i m).map Prod.fst).Nodup := by
  induction nodes generalizing i m with
  | nil => simpa [updateNodeIndexAux] using h
  | cons n rest ih =>
    simp only [updateNodeIndexAux]
    by_cases h0 : n.node_hash ≠ 0
    · simp only [if_pos h0]
      exact ih _ _ (nodup_keys_mapInsert _ _ _ h)
    · simp only [if_neg h0]
      exact ih _ _ h

theorem mapFind_updateNodeIndexAux (nodes : List Node) (i : Nat)
    (m : List (Int × Nat)) (k : Int) :
    mapFind (updateNodeIndexAux nodes i m) k =
      match lastHashIdxFrom k nodes i with
      | some j => some j
      | none => mapFind m k := by
  induction nodes generalizing i m with
  | nil => simp [updateNodeIndexAux, lastHashIdxFrom]
  | cons n rest ih =>
    simp only [updateNodeIndexAux, lastHashIdxFrom]
    rw [ih]
    cases hrec : lastHashIdxFrom k rest (i + 1) with
    | some j => simp
    | none =>
      by_cases hnz : n.node_hash ≠ 0
      · rw [if_pos hnz, mapFind_mapInsert]
        by_cases hk : n.node_hash = k
        · subst hk
          rw [if_pos rfl, if_pos ⟨rfl, hnz⟩]
        · rw [if_neg hk, if_neg (fun hx => hk hx.1)]
      · rw [if_neg hnz]
        push_neg at hnz
        rw [if_neg (fun hx : n.node_hash = k ∧ k ≠ 0 => hx.2 (hnz ▸ hx.1.symm))]

theorem lastHashIdxFrom_sound (k : Int) (nodes : List Node) (i j : Nat)
    (h : lastHashIdxFrom k nodes i = some j) :
    i ≤ j ∧ k ≠ 0 ∧ ∃ n, nodes.get? (j - i) = some n ∧ n.node_hash = k := by
  induction nodes generalizing i with
  | nil => simp [lastHashIdxFrom] at h
  | cons n rest ih =>
    simp only [lastHashIdxFrom] at h
    cases hrec : lastHashIdxFrom k rest (i + 1) with
    | some j' =>
      rw [hrec] at h
      have hj : j = j' := by simpa using h.symm
      subst hj
      obtain ⟨hij, hknz, n', hn', hhash⟩ := ih (i + 1) hrec
      refine ⟨by omega, hknz, n', ?_, hhash⟩
      have hji : j - i = (j - (i + 1)) + 1 := by omega
      rw [hji]
      simpa using hn'
    | none =>
      rw [hrec] at h
      by_cases hc : n.node_hash = k ∧ k ≠ 0
      · rw [if_pos hc] at h
        injection h with h'
        subst h'
        exact ⟨le_refl i, hc.2, n, by simp, hc.1⟩
      · rw [if_neg hc] at h
        exact absurd h (by simp)

theorem lastHashIdxFrom_isSome (k : Int) (nodes : List Node) (i : Nat)
    (n : Node) (hmem : n ∈ nodes) (hh : n.node_hash = k) (hknz : k ≠ 0) :
    (lastHashIdxFrom k nodes i).isSome := by
  induction nodes generalizing i with
  | nil => simp at hmem
  | cons n0 rest ih =>
    simp only [lastHashIdxFrom]
    cases hrec : lastHashIdxFrom k rest (i + 1) with
    | some j => simp
    | none =>
      rcases List.mem_cons.mp hmem with rfl | hmem'
      · rw [if_pos ⟨hh, hknz⟩]
        simp
      · have hsome := ih (i + 1) hmem'
        rw [hrec] at hsome
        simp at hsome

theorem lastHashIdxFrom_last (k : Int) (nodes : List Node) (i j : Nat)
    (h : lastHashIdxFrom k nodes i = some j) :
    ∀ d n, nodes.get? d = some n → n.node_hash = k → i + d ≤ j := by
  induction nodes generalizing i with
  | nil => intro d n hd; simp at hd
  | cons n0 rest ih =>
    intro d n hd hh
    simp only [lastHashIdxFrom] at h
    cases hrec : lastHashIdxFrom k rest (i + 1) with
    | some j' =>
      rw [hrec] at h
      have hj : j = j' := by simpa using h.symm
      subst hj
      cases d with
      | zero =>
        have := (lastHashIdxFrom_sound k rest (i + 1) j hrec).1
        omega
      | succ d' =>
        have := ih (i + 1) hrec d' n (by simpa using hd) hh
        omega
    | none =>
      rw [hrec] at h
      by_cases hc : n0.node_hash = k ∧ k ≠ 0
      · rw [if_pos hc] at h
        injection h with h'
        subst h'
        cases d with
        | zero => omega
        | succ d' =>
          exfalso
          have hknz := hc.2
          have hmem : n ∈ rest := List.get?_mem (by simpa using hd)
          have hsome := lastHashIdxFrom_isSome k rest (i + 1) n hmem hh hknz
          rw [hrec] at hsome
          simp at hsome
      · rw [if_neg hc] at h
        exact absurd h (by simp)

theorem mapFind_isSome_iff_mem_keys (m : List (Int × Nat)) (k : Int) :
    (mapFind m k).isSome ↔ k ∈ m.map Prod.fst := by
  induction m with
  | nil => simp [mapFind]
  | cons kv rest ih =>
    obtain ⟨k0, v0⟩ := kv
    by_cases h : k0 = k
    · subst h
      simp [mapFind]
    · simp [mapFind, h, ih, Ne.symm h]

theorem mapFind_eq_of_mem_of_nodup (m : List (Int × Nat)) (k : Int) (i : Nat)
    (hnd : (m.map Prod.fst).Nodup) (hmem : (k, i) ∈ m) : mapFind m k = some i := by
  induction m with
  | nil => simp at hmem
  | cons kv rest ih =>
    obtain ⟨k0, v0⟩ := kv
    simp only [List.map_cons, List.nodup_cons] at hnd
    rcases List.mem_cons.mp hmem with heq | hmem'
    · obtain ⟨h1, h2⟩ := Prod.ext_iff.mp heq
      subst h1
      subst h2
      simp [mapFind]
    · have hk : k0 ≠ k := by
        rintro rfl
        exact hnd.1 (List.mem_map.mpr ⟨(k0, i), hmem', rfl⟩)
      simp only [mapFind, if_neg hk]
      exact ih hnd.2 hmem'

/-- C2: after the wholesale rebuild triggered by an accepted (non-empty)
poll refresh, the directory has pairwise-distinct keys, its key set is
exactly the set of non-zero hashes occurring in the node list, every
lookup result indexes a node bearing the looked-up hash, and on
duplicated hashes the entry points at the last such node in input
order. -/
theorem c2_directory_rebuild_correct (timeStr : String) (s : AppState)
    (nodes : List Node) (_hne : nodes ≠ []) :
    (((applyNodesUpdate timeStr s nodes).node_hash_index.map Prod.fst).Nodup
     ∧ (∀ k : Int,
          k ∈ (applyNodesUpdate timeStr s nodes).node_hash_index.map Prod.fst
            ↔ (k ≠ 0 ∧ ∃ n ∈ nodes, n.node_hash = k))
     ∧ (∀ (k : Int) (i : Nat),
          mapFind (applyNodesUpdate timeStr s nodes).node_hash_index k = some i
            → ∃ n, nodes.get? i = some n ∧ n.node_hash = k)
     ∧ (∀ (k : Int) (i : Nat),
          mapFind (applyNodesUpdate timeStr s nodes).node_hash_index k = some i
            → ∀ (j : Nat) (n : Node), nodes.get? j = some n → n.node_hash = k
            → j ≤ i)) := by
  have hidx : (applyNodesUpdate timeStr s nodes).node_hash_index = updateNodeIndex nodes := rfl
  rw [hidx]
  refine ⟨nodup_keys_updateNodeIndexAux nodes 0 [] (by simp), ?_, ?_, ?_⟩
  · intro k
    constructor
    · intro hk
      have hs : (mapFind (updateNodeIndex nodes) k).isSome :=
        (mapFind_isSome_iff_mem_keys _ _).mpr hk
      rw [updateNodeIndex, mapFind_updateNodeIndexAux] at hs
      cases hlast : lastHashIdxFrom k nodes 0 with
      | none =>
        rw [hlast] at hs
        simp [mapFind] at hs
      | some j =>
        obtain ⟨-, hknz, n, hget, hh⟩ := lastHashIdxFrom_sound k nodes 0 j hlast
        exact ⟨hknz, n, List.get?_mem hget, hh⟩
    · rintro ⟨hknz, n, hmem, hh⟩
      rw [← mapFind_isSome_iff_mem_keys, updateNodeIndex, mapFind_updateNodeIndexAux]
      have hs := lastHashIdxFrom_isSome k nodes 0 n hmem hh hknz
      cases hlast : lastHashIdxFrom k nodes 0 with
      | none => rw [hlast] at hs; simp at hs
      | some j => simp
  · intro k i h
    rw [updateNodeIndex, mapFind_updateNodeIndexAux] at h
    cases hlast : lastHashIdxFrom k nodes 0 with
    | none =>
      rw [hlast] at h
      simp [mapFind] at h
    | some j =>
      rw [hlast] at h
      obtain rfl : j = i := by simpa using h
      obtain ⟨-, -, n, hget, hh⟩ := lastHashIdxFrom_sound k nodes 0 j hlast
      exact ⟨n, by simpa using hget, hh⟩
  · intro k i h j n hget hh
    rw [updateNodeIndex, mapFind_updateNodeIndexAux] at h
    cases hlast : lastHashIdxFrom k nodes 0 with
    | none =>
      rw [hlast] at h
      simp [mapFind] at h
    | some j' =>
      rw [hlast] at h
      obtain rfl : j' = i := by simpa using h
      have := lastHashIdxFrom_last k nodes 0 j' hlast j n hget hh
      omega

/-- Witness for C2 at a concrete one-node refresh. -/
theorem c2_directory_rebuild_correct_witness :
    ∃ n, ([({ node_hash := 100 } : Node)].get? 0 = some n) ∧ n.node_hash = 100 := by
  have h := c2_directory_rebuild_correct "t" initialState
    [({ node_hash := 100 } : Node)] (by simp)
  exact h.2.2.1 100 0 (by rfl)

/-! ### Frame lemmas for the state mutations -/

theorem handlePacketMessage_shape (now : Nat) (ts : String) (s : AppState)
    (root : Json) :
    ∃ msgs pulses,
      handlePacketMessage now ts s root
        = { s with packet_messages := msgs, pulses := pulses }
      ∧ (pulses = s.pulses ∨ ∃ p, pulses = s.pulses ++ [p] ∧ p.start_time_ms = now)
      ∧ (msgs = s.packet_messages
          ∨ ∃ m, msgs = trimPacketMessages (m :: s.packet_messages)) := by
  cases root with
  | obj fields =>
    simp only [handlePacketMessage]
    split
    · split
      · exact ⟨_, _, rfl, Or.inr ⟨_, rfl, rfl⟩, Or.inr ⟨_, rfl⟩⟩
      · exact ⟨_, _, rfl, Or.inl rfl, Or.inr ⟨_, rfl⟩⟩
    · exact ⟨_, _, rfl, Or.inl rfl, Or.inr ⟨_, rfl⟩⟩
  | null => exact ⟨s.packet_messages, s.pulses, rfl, Or.inl rfl, Or.inl rfl⟩
  | bool b => exact ⟨s.packet_messages, s.pulses, rfl, Or.inl rfl, Or.inl rfl⟩
  | num n => exact ⟨s.packet_messages, s.pulses, rfl, Or.inl rfl, Or.inl rfl⟩
  | str v => exact ⟨s.packet_messages, s.pulses, rfl, Or.inl rfl, Or.inl rfl⟩
  | arr elems => exact ⟨s.packet_messages, s.pulses, rfl, Or.inl rfl, Or.inl rfl⟩

theorem handlePropagationMessage_shape (now : Nat) (s : AppState) (root : Json) :
    ∃ paths seed,
      handlePropagationMessage now s root
        = { s with paths := paths, prop_seed := seed }
      ∧ (paths = s.paths ∨ ∃ a, paths = s.paths ++ [a] ∧ a.start_time_ms = now) := by
  cases root with
  | obj fields =>
    simp only [handlePropagationMessage]
    split
    · split
      · split
        · split
          · exact ⟨s.paths, s.prop_seed, rfl, Or.inl rfl⟩
          · split
            · exact ⟨_, _, rfl, Or.inr ⟨_, rfl, rfl⟩⟩
            · exact ⟨s.paths, s.prop_seed, rfl, Or.inl rfl⟩
        · exact ⟨s.paths, s.prop_seed, rfl, Or.inl rfl⟩
      · exact ⟨s.paths, s.prop_seed, rfl, Or.inl rfl⟩
    · exact ⟨s.paths, s.prop_seed, rfl, Or.inl rfl⟩
  | null => exact ⟨s.paths, s.prop_seed, rfl, Or.inl rfl⟩
  | bool b => exact ⟨s.paths, s.prop_seed, rfl, Or.inl rfl⟩
  | num n => exact ⟨s.paths, s.prop_seed, rfl, Or.inl rfl⟩
  | str v => exact ⟨s.paths, s.prop_seed, rfl, Or.inl rfl⟩
  | arr elems => exact ⟨s.paths, s.prop_seed, rfl, Or.inl rfl⟩

/-- Shape of any SSE dispatch: the node list and the directory are never
touched; pulses and paths only ever grow by one entry stamped with the
current clock; the packet log only changes by a front push plus trim. -/
theorem handleSseMessage_shape (parse : String → Option Json) (now : Nat)
    (ts : String) (s : AppState) (msg : String) :
    ∃ msgs pulses paths seed cst lup,
      handleSseMessage parse now ts s msg
        = { s with packet_messages := msgs, pulses := pulses, paths := paths
                 , prop_seed := seed, connection_status := cst, last_update := lup }
      ∧ (pulses = s.pulses ∨ ∃ p, pulses = s.pulses ++ [p] ∧ p.start_time_ms = now)
      ∧ (paths = s.paths ∨ ∃ a, paths = s.paths ++ [a] ∧ a.start_time_ms = now)
      ∧ (msgs = s.packet_messages
          ∨ ∃ m, msgs = trimPacketMessages (m :: s.packet_messages)) := by
  simp only [handleSseMessage]
  split
  · exact ⟨_, _, _, _, _, _, rfl, Or.inl rfl, Or.inl rfl, Or.inl rfl⟩
  · split
    · split
      · exact ⟨_, _, _, _, _, _, rfl, Or.inl rfl, Or.inl rfl, Or.inl rfl⟩
      · exact ⟨_, _, _, _, _, _, rfl, Or.inl rfl, Or.inl rfl, Or.inl rfl⟩
    · split
      · exact ⟨_, _, _, _, _, _, rfl, Or.inl rfl, Or.inl rfl, Or.inl rfl⟩
      · split
        · split
          · exact ⟨_, _, _, _, _, _, rfl, Or.inl rfl, Or.inl rfl, Or.inl rfl⟩
          · split
            · simp only [handlePacketStr]
              split
              · exact ⟨_, _, _, _, _, _, rfl, Or.inl rfl, Or.inl rfl, Or.inl rfl⟩
              · split
                · next root heq =>
                  obtain ⟨ms, ps, hEq, hp, hm⟩ :=
                    handlePacketMessage_shape now ts s root
                  rw [hEq]
                  exact ⟨ms, ps, s.paths, s.prop_seed, s.connection_status, ts,
                    rfl, hp, Or.inl rfl, hm⟩
                · exact ⟨_, _, _, _, _, _, rfl, Or.inl rfl, Or.inl rfl, Or.inl rfl⟩
            · simp only [handlePropagationStr]
              split
              · exact ⟨_, _, _, _, _, _, rfl, Or.inl rfl, Or.inl rfl, Or.inl rfl⟩
              · split
                · next root heq =>
                  obtain ⟨ps, sd, hEq, hp⟩ :=
                    handlePropagationMessage_shape now s root
                  rw [hEq]
                  exact ⟨s.packet_messages, s.pulses, ps, sd, s.connection_status,
                    ts, rfl, Or.inl rfl, hp, Or.inl rfl⟩
                · exact ⟨_, _, _, _, _, _, rfl, Or.inl rfl, Or.inl rfl, Or.inl rfl⟩
        · exact ⟨_, _, _, _, _, _, rfl, Or.inl rfl, Or.inl rfl, Or.inl rfl⟩

theorem step_pulses_shape {t : Nat} {s s' : AppState} (h : Step t s s') :
    ∀ p ∈ s'.pulses, p ∈ s.pulses ∨ p.start_time_ms = t := by
  intro p hp
  cases h with
  | sse parse ts msg =>
    obtain ⟨ms, ps, pa, sd, c, l, hEq, hpul, -, -⟩ :=
      handleSseMessage_shape parse t ts s msg
    rw [hEq] at hp
    have hp' : p ∈ ps := hp
    rcases hpul with h1 | ⟨q, h1, h2⟩
    · exact Or.inl (h1 ▸ hp')
    · rw [h1] at hp'
      rcases List.mem_append.mp hp' with hin | hq
      · exact Or.inl hin
      · right
        obtain rfl : p = q := by simpa using hq
        exact h2
  | fetchNodes ts nodes hne =>
    exact Or.inl hp
  | sweep =>
    exact Or.inl (List.mem_filter.mp hp).1
  | toggleAnimations =>
    exact Or.inl hp
  | select i =>
    exact Or.inl hp

theorem step_messages_shape {t : Nat} {s s' : AppState} (h : Step t s s') :
    s'.packet_messages = s.packet_messages
      ∨ ∃ m, s'.packet_messages = trimPacketMessages (m :: s.packet_messages) := by
  cases h with
  | sse parse ts msg =>
    obtain ⟨ms, ps, pa, sd, c, l, hEq, -, -, hm⟩ :=
      handleSseMessage_shape parse t ts s msg
    rw [hEq]
    exact hm
  | fetchNodes ts nodes hne => exact Or.inl rfl
  | sweep => exact Or.inl rfl
  | toggleAnimations => exact Or.inl rfl
  | select i => exact Or.inl rfl

theorem step_directory_shape {t : Nat} {s s' : AppState} (h : Step t s s') :
    (s'.nodes = s.nodes ∧ s'.node_hash_index = s.node_hash_index)
      ∨ s'.node_hash_index = updateNodeIndex s'.nodes := by
  cases h with
  | sse parse ts msg =>
    obtain ⟨ms, ps, pa, sd, c, l, hEq, -, -, -⟩ :=
      handleSseMessage_shape parse t ts s msg
    rw [hEq]
    exact Or.inl ⟨rfl, rfl⟩
  | fetchNodes ts nodes hne => exact Or.inr rfl
  | sweep => exact Or.inl ⟨rfl, rfl⟩
  | toggleAnimations => exact Or.inl ⟨rfl, rfl⟩
  | select i => exact Or.inl ⟨rfl, rfl⟩

theorem trace_time_le {t0 t1 : Nat} {s0 s1 : AppState}
    (h : Trace t0 s0 t1 s1) : t0 ≤ t1 := by
  induction h with
  | refl _ => omega
  | step htr hle hlt hstep ih => omega

/-! ### The directory invariant (C10) -/

/-- Every directory entry binds a non-zero hash to an in-bounds index of
a node actually bearing that hash. -/
def IndexInv (s : AppState) : Prop :=
  ∀ kv ∈ s.node_hash_index,
    kv.1 ≠ 0 ∧ ∃ n, s.nodes.get? kv.2 = some n ∧ n.node_hash = kv.1

theorem mem_of_mapFind_eq_some (m : List (Int × Nat)) (k : Int) (i : Nat)
    (h : mapFind m k = some i) : (k, i) ∈ m := by
  induction m with
  | nil => simp [mapFind] at h
  | cons kv rest ih =>
    obtain ⟨k0, v0⟩ := kv
    simp only [mapFind] at h
    by_cases hk : k0 = k
    · rw [if_pos hk] at h
      obtain rfl : v0 = i := by simpa using h
      subst hk
      exact List.mem_cons_self _ _
    · rw [if_neg hk] at h
      exact List.mem_cons_of_mem _ (ih h)

theorem indexInv_updateNodeIndex (nodes : List Node) (kv : Int × Nat)
    (hmem : kv ∈ updateNodeIndex nodes) :
    kv.1 ≠ 0 ∧ ∃ n, nodes.get? kv.2 = some n ∧ n.node_hash = kv.1 := by
  have hnd := nodup_keys_updateNodeIndexAux nodes 0 [] (by simp)
  obtain ⟨k, i⟩ := kv
  have hf : mapFind (updateNodeIndex nodes) k = some i :=
    mapFind_eq_of_mem_of_nodup _ _ _ hnd hmem
  rw [updateNodeIndex, mapFind_updateNodeIndexAux] at hf
  cases hlast : lastHashIdxFrom k nodes 0 with
  | none =>
    rw [hlast] at hf
    simp [mapFind] at hf
  | some j =>
    rw [hlast] at hf
    obtain rfl : j = i := by simpa using hf
    obtain ⟨-, hknz, n, hget, hh⟩ := lastHashIdxFrom_sound k nodes 0 j hlast
    exact ⟨hknz, n, by simpa using hget, hh⟩

/-- C10: the directory invariant — every entry maps a non-zero hash to
an in-bounds index whose node carries exactly that hash — is preserved
by every state mutation (the rebuild runs in the same critical section
as the list replacement), and under it every directory lookup performed
by the packet/propagation handlers is an in-bounds access to a node with
the looked-up hash. -/
theorem c10_directory_invariant_preserved :
    (∀ (t : Nat) (s s' : AppState), Step t s s' → IndexInv s → IndexInv s')
    ∧ (∀ (t0 t1 : Nat) (s1 : AppState), Trace t0 initialState t1 s1 →
        IndexInv s1)
    ∧ (∀ (s : AppState) (k : Int) (i : Nat), IndexInv s →
        mapFind s.node_hash_index k = some i →
        k ≠ 0 ∧ ∃ n, s.nodes.get? i = some n ∧ n.node_hash = k) := by
  have hpres : ∀ (t : Nat) (s s' : AppState), Step t s s' → IndexInv s → IndexInv s' := by
    intro t s s' hstep hinv
    rcases step_directory_shape hstep with ⟨hn, hi⟩ | hupd
    · intro kv hkv
      rw [hi] at hkv
      rw [hn]
      exact hinv kv hkv
    · intro kv hkv
      rw [hupd] at hkv
      exact indexInv_updateNodeIndex s'.nodes kv hkv
  refine ⟨hpres, ?_, ?_⟩
  · have haux : ∀ (a b : Nat) (s0 s1 : AppState), Trace a s0 b s1 →
        IndexInv s0 → IndexInv s1 := by
      intro a b s0 s1 htr2
      induction htr2 with
      | refl _ => exact id
      | step htr3 hle hlt hs ih =>
        intro h0
        exact hpres _ _ _ hs (ih h0)
    intro t0 t1 s1 htr
    refine haux _ _ _ _ htr ?_
    intro kv hkv
    simp [initialState] at hkv
  · intro s k i hinv hf
    have hmem := mem_of_mapFind_eq_some _ _ _ hf
    exact hinv (k, i) hmem

/-- Witness for C10: the invariant survives a concrete refresh step and
yields an in-bounds lookup. -/
theorem c10_directory_invariant_witness :
    (100 : Int) ≠ 0 ∧
      ∃ n, (applyNodesUpdate "t" initialState
              [({ node_hash := 100 } : Node)]).nodes.get? 0 = some n
            ∧ n.node_hash = 100 := by
  have h := c10_directory_invariant_preserved
  have hinv : IndexInv (applyNodesUpdate "t" initialState
      [({ node_hash := 100 } : Node)]) :=
    h.1 0 initialState _
      (Step.fetchNodes 0 initialState "t" [({ node_hash := 100 } : Node)]
        (by simp))
      (by intro kv hkv; simp [initialState] at hkv)
  exact h.2.2 _ 100 0 hinv (by rfl)

/-! ### The packet-log bound (C7) -/

theorem trimPacketMessages_length_aux (k : Nat) :
    ∀ (l : List PacketMessage), l.length ≤ k →
      (trimPacketMessages l).length = min l.length 5 := by
  induction k with
  | zero =>
    intro l hl
    rw [trimPacketMessages]
    have h0 : l.length = 0 := by omega
    rw [if_neg (by omega)]
    omega
  | succ k ih =>
    intro l hl
    rw [trimPacketMessages]
    by_cases h : 5 < l.length
    · rw [if_pos h]
      have hdl : l.dropLast.length = l.length - 1 := by simp
      rw [ih l.dropLast (by omega)]
      omega
    · rw [if_neg h]
      omega

theorem trimPacketMessages_length (l : List PacketMessage) :
    (trimPacketMessages l).length = min l.length 5 :=
  trimPacketMessages_length_aux l.length l (le_refl _)

/-- C7: across every state mutation, the packet log either stays
untouched or receives exactly one new line pushed at the front followed
by the back-eviction trim (no other operation inserts or reorders); the
≤ 5 bound is preserved by every mutation and therefore holds in every
state reachable from the initial one. -/
theorem c7_packet_log_bound :
    (∀ (t : Nat) (s s' : AppState), Step t s s' →
       (s'.packet_messages = s.packet_messages
         ∨ ∃ m, s'.packet_messages = trimPacketMessages (m :: s.packet_messages))
       ∧ (s.packet_messages.length ≤ 5 → s'.packet_messages.length ≤ 5))
    ∧ (∀ (t0 t1 : Nat) (s1 : AppState), Trace t0 initialState t1 s1 →
        s1.packet_messages.length ≤ 5) := by
  have hstep : ∀ (t : Nat) (s s' : AppState), Step t s s' →
      s.packet_messages.length ≤ 5 → s'.packet_messages.length ≤ 5 := by
    intro t s s' h hb
    rcases step_messages_shape h with heq | ⟨m, heq⟩
    · rw [heq]; exact hb
    · rw [heq, trimPacketMessages_length]
      omega
  constructor
  · intro t s s' h
    exact ⟨step_messages_shape h, hstep t s s' h⟩
  · have haux : ∀ (a b : Nat) (s0 s1 : AppState), Trace a s0 b s1 →
        s0.packet_messages.length ≤ 5 → s1.packet_messages.length ≤ 5 := by
      intro a b s0 s1 htr2
      induction htr2 with
      | refl _ => exact id
      | step htr3 hle hlt hs ih =>
        intro h0
        exact hstep _ _ _ hs (ih h0)
    intro t0 t1 s1 htr
    exact haux _ _ _ _ htr (by simp [initialState])

/-- Witness for C7 at a concrete mutation. -/
theorem c7_packet_log_bound_witness :
    ({ initialState with animations_enabled := !initialState.animations_enabled }
        : AppState).packet_messages.length ≤ 5 := by
  have h := c7_packet_log_bound.1 0 initialState _
    (Step.toggleAnimations 0 initialState)
  exact h.2 (by simp [initialState])

/-! ### Sweep and monotonic eviction (C6) -/

theorem wrapSub_eq_sub (a b : Nat) (hba : b ≤ a) (ha : a < u64) :
    wrapSub a b = a - b := by
  simp only [wrapSub, u64] at *
  omega

theorem pulse_never_reappears (p : MovingPulse) {t0 t1 : Nat}
    {s0 s1 : AppState} (htr : Trace t0 s0 t1 s1) :
    p ∉ s0.pulses → p.start_time_ms < t0 → p ∉ s1.pulses := by
  induction htr with
  | refl _ => exact fun hnot _ => hnot
  | step htr2 hle hltu hstep ih =>
    intro hnot hlt hp2
    rcases step_pulses_shape hstep p hp2 with hin | hst
    · exact ih hnot hlt hin
    · have := trace_time_le htr2
      omega

/-- C6: after a sweep at time `now` no surviving pulse is older than its
duration + 500 ms and no surviving path animation older than its
duration + 1500 ms; and a pulse old enough to be removed by a sweep is
absent from the swept state and from every state reachable afterwards —
pulse creation (which stamps the current clock) is the only insertion
and the sweep the only removal. -/
theorem c6_sweep_age_bound_and_monotonic_eviction :
    (∀ (now : Nat) (s : AppState), now < u64 →
       (∀ p ∈ (sweepState now s).pulses, p.start_time_ms ≤ now →
          now - p.start_time_ms ≤ p.duration_ms + 500)
       ∧ (∀ a ∈ (sweepState now s).paths, a.start_time_ms ≤ now →
          now - a.start_time_ms ≤ a.duration_ms + 1500))
    ∧ (∀ (t : Nat) (s : AppState) (p : MovingPulse),
         t < u64 → p.start_time_ms ≤ t →
         p.duration_ms + 500 < t - p.start_time_ms →
         ∀ (t' : Nat) (s' : AppState), Trace t (sweepState t s) t' s' →
           p ∉ s'.pulses) := by
  constructor
  · intro now s hnow
    constructor
    · intro p hp hle
      have hcond := (List.mem_filter.mp hp).2
      rw [wrapSub_eq_sub now p.start_time_ms hle hnow] at hcond
      simpa using hcond
    · intro a ha hle
      have hcond := (List.mem_filter.mp ha).2
      rw [wrapSub_eq_sub now a.start_time_ms hle hnow] at hcond
      simpa using hcond
  · intro t s p htu hle hold t' s' htr
    have hstart : p.start_time_ms < t := by omega
    have hnot : p ∉ (sweepState t s).pulses := by
      intro hp
      have hcond := (List.mem_filter.mp hp).2
      rw [wrapSub_eq_sub t p.start_time_ms hle htu] at hcond
      simp at hcond
      omega
    exact pulse_never_reappears p htr hnot hstart

/-- Witness for C6: a concrete expired pulse stays gone through the
trivial trace. -/
theorem c6_sweep_eviction_witness :
    (⟨(0, 0), (0, 0), 0, 1200⟩ : MovingPulse) ∉
      (sweepState 2000
        { initialState with pulses := [⟨(0, 0), (0, 0), 0, 1200⟩] }).pulses := by
  have h := c6_sweep_age_bound_and_monotonic_eviction.2 2000
    { initialState with pulses := [⟨(0, 0), (0, 0), 0, 1200⟩] }
    ⟨(0, 0), (0, 0), 0, 1200⟩
    (by norm_num [u64]) (by norm_num) (by norm_num)
  exact h 2000 _ (Trace.refl 2000 _)

/-! ### Packet handling: pulse emission and the log line (C1, C3) -/

theorem trimPacketMessages_cons_head_aux (k : Nat) :
    ∀ (m : PacketMessage) (l : List PacketMessage), l.length ≤ k →
      (trimPacketMessages (m :: l)).head? = some m := by
  induction k with
  | zero =>
    intro m l hl
    have h0 : l = [] := List.length_eq_zero.mp (by omega)
    subst h0
    rw [trimPacketMessages]
    simp
  | succ k ih =>
    intro m l hl
    rw [trimPacketMessages]
    by_cases h : 5 < (m :: l).length
    · rw [if_pos h]
      have hlne : l ≠ [] := by
        intro h0
        subst h0
        simp at h
      rw [List.dropLast_cons_of_ne_nil hlne]
      exact ih m l.dropLast (by simp; omega)
    · rw [if_neg h]
      simp

theorem trimPacketMessages_cons_head (m : PacketMessage) (l : List PacketMessage) :
    (trimPacketMessages (m :: l)).head? = some m :=
  trimPacketMessages_cons_head_aux l.length m l (le_refl _)

/-- C1: on any packet-payload object, the handler records exactly the
formatted log line; when `src_hash`/`dst_hash` resolve (both present, of
the same kind) to two position-valid nodes it appends exactly one pulse
whose endpoints are the two nodes' Web-Mercator world-pixel projections
at the default zoom (start = end included when the two nodes coincide),
and otherwise it appends no pulse. -/
theorem c1_packet_pulse_emission (now : Nat) (ts : String) (s : AppState)
    (fields : List (String × Json)) :
    ((handlePacketMessage now ts s (Json.obj fields)).packet_messages
        = trimPacketMessages
            (⟨formatPacketLine ts (jsonGetString (Json.obj fields) "direction")
                (packetSender (Json.obj fields)) (packetOrigin (Json.obj fields)),
              now⟩ :: s.packet_messages))
    ∧ (∀ a b, packetEndpoints s (Json.obj fields) = (some a, some b) →
        a.has_position = true → b.has_position = true →
        (handlePacketMessage now ts s (Json.obj fields)).pulses
          = s.pulses ++ [mkPulse a b now])
    ∧ ((∀ a b, packetEndpoints s (Json.obj fields) = (some a, some b) →
          ¬(a.has_position = true ∧ b.has_position = true)) →
        (handlePacketMessage now ts s (Json.obj fields)).pulses = s.pulses) := by
  simp only [handlePacketMessage]
  split
  · next a b heq =>
    by_cases hpos : (a.has_position && b.has_position) = true
    · rw [if_pos hpos]
      refine ⟨rfl, ?_, ?_⟩
      · intro a' b' heq' hpa hpb
        rw [heq] at heq'
        obtain ⟨h1, h2⟩ := Prod.ext_iff.mp heq'
        obtain rfl : a = a' := by simpa using h1
        obtain rfl : b = b' := by simpa using h2
        rfl
      · intro hnone
        exfalso
        rcases Bool.and_eq_true_iff.mp hpos with ⟨hpa, hpb⟩
        exact hnone a b heq ⟨hpa, hpb⟩
    · rw [if_neg hpos]
      refine ⟨rfl, ?_, fun _ => rfl⟩
      intro a' b' heq' hpa hpb
      rw [heq] at heq'
      obtain ⟨h1, h2⟩ := Prod.ext_iff.mp heq'
      obtain rfl : a = a' := by simpa using h1
      obtain rfl : b = b' := by simpa using h2
      exact absurd (by simp [hpa, hpb] : (a.has_position && b.has_position) = true) hpos
  · next x hne =>
    refine ⟨rfl, ?_, fun _ => rfl⟩
    intro a b heq' hpa hpb
    exact absurd heq' (hne a b)

/-- The spec's scenario node: hash 100, position (55, 37), chat node. -/
noncomputable def scenarioNode : Node :=
  { id := 1, node_hash := 100, lat := 55, lon := 37
  , has_position := true, is_chat_node := true }

/-- State after a refresh delivering only the scenario node. -/
noncomputable def scenarioState : AppState :=
  applyNodesUpdate "12:00:00" initialState [scenarioNode]

/-- The spec's scenario packet payload
`{"src_hash":100,"dst_hash":100,"sender_name":"A"}`. -/
def scenarioPacket : Json :=
  Json.obj [("src_hash", Json.num 100), ("dst_hash", Json.num 100),
            ("sender_name", Json.str "A")]

/-- Witness for C1: the scenario payload appends exactly the
self-looping pulse. -/
theorem c1_packet_pulse_emission_witness :
    (handlePacketMessage 0 "12:00:00" scenarioState scenarioPacket).pulses
      = scenarioState.pulses ++ [mkPulse scenarioNode scenarioNode 0] := by
  have h := c1_packet_pulse_emission 0 "12:00:00" scenarioState
    [("src_hash", Json.num 100), ("dst_hash", Json.num 100),
     ("sender_name", Json.str "A")]
  exact h.2.1 scenarioNode scenarioNode (by rfl) (by rfl) (by rfl)

/-- C3: every packet-payload object pushes a line of the form
`"<time> <DIRECTION>: <sender> -> <origin>"` at the head of the log —
the direction segment omitted when empty, the sender being the first
non-empty of `sender_name`, `group_sender_name`, `advert_name` (default
`"unknown"`), and the origin defaulting to `"unknown"`. -/
theorem c3_packet_log_line_format (now : Nat) (ts : String) (s : AppState)
    (fields : List (String × Json)) :
    (handlePacketMessage now ts s (Json.obj fields)).packet_messages.head?
      = some ⟨formatPacketLine ts (jsonGetString (Json.obj fields) "direction")
                (packetSender (Json.obj fields)) (packetOrigin (Json.obj fields)),
              now⟩ := by
  rw [(c1_packet_pulse_emission now ts s fields).1]
  exact trimPacketMessages_cons_head _ _

/-- Witness for C3: the scenario payload (sender `"A"`, no origin)
yields a head line ending in `"A -> unknown"`. -/
theorem c3_packet_log_line_format_witness :
    ((handlePacketMessage 0 "12:00:00" scenarioState
        scenarioPacket).packet_messages.head?).map PacketMessage.text
      = some "12:00:00 A -> unknown"
    ∧ ("A -> unknown".data).isSuffixOf ("12:00:00 A -> unknown".data) = true := by
  constructor
  · rw [show scenarioPacket
          = Json.obj [("src_hash", Json.num 100), ("dst_hash", Json.num 100),
                      ("sender_name", Json.str "A")] from rfl,
        c3_packet_log_line_format 0 "12:00:00" scenarioState
          [("src_hash", Json.num 100), ("dst_hash", Json.num 100),
           ("sender_name", Json.str "A")]]
    rfl
  · decide

/-! ### Propagation handling (C4, C5) -/

/-- The resolved, position-valid node list of a propagation payload
(empty when `path`/`path.nodes` are missing or of the wrong shape). -/
def propResolvedNodes (s : AppState) (root : Json) : List Node :=
  match root.find "path" with
  | some (.obj pf) =>
    match (Json.obj pf).find "nodes" with
    | some (.arr vals) => resolvedNodes s vals
    | _ => []
  | _ => []

/-- C4: a propagation payload in which fewer than two `path.nodes`
entries resolve to position-valid nodes changes nothing — no path
animation is appended and the state is returned untouched. -/
theorem c4_propagation_drop (now : Nat) (s : AppState) (root : Json)
    (h : (propResolvedNodes s root).length < 2) :
    handlePropagationMessage now s root = s := by
  cases root with
  | obj fields =>
    simp only [handlePropagationMessage]
    split
    · split
      · next pf hpath =>
        split
        · next vals hnodes =>
          split
          · rfl
          · next hlen =>
            split
            · next hpts =>
              exfalso
              have hpr : propResolvedNodes s (Json.obj fields)
                  = resolvedNodes s vals := by
                simp only [propResolvedNodes, hpath, hnodes]
              rw [hpr] at h
              have hlenpts : (propPoints s vals).length
                  = (resolvedNodes s vals).length := by
                simp [propPoints]
              omega
            · rfl
        · rfl
      · rfl
    · rfl
  | null => rfl
  | bool b => rfl
  | num n => rfl
  | str v => rfl
  | arr es => rfl

/-- The spec's scenario propagation payload
`path.nodes = [100, 200]` (hash 200 unknown to the directory). -/
def scenarioPropPayload : Json :=
  Json.obj [("type", Json.str "propagation.path"),
            ("path", Json.obj [("nodes", Json.arr [Json.num 100, Json.num 200])])]

/-- Witness for C4: with only hash 100 known, one point resolves and the
event is dropped with the state unchanged. -/
theorem c4_propagation_drop_witness :
    handlePropagationMessage 0 scenarioState scenarioPropPayload = scenarioState := by
  exact c4_propagation_drop 0 scenarioState scenarioPropPayload (by decide)

/-- A second scenario node for exercising propagation paths. -/
noncomputable def node200 : Node :=
  { id := 2, node_hash := 200, lat := 56, lon := 38, has_position := true }

/-- State after a refresh delivering nodes 100 and 200. -/
noncomputable def twoNodeState : AppState :=
  applyNodesUpdate "t" initialState [scenarioNode, node200]

/-- A propagation payload with four `path.nodes` entries of which only
two (100, 200) resolve. -/
def c5Payload : Json :=
  Json.obj [("type", Json.str "propagation.path"),
            ("path", Json.obj [("nodes",
              Json.arr [Json.num 100, Json.num 200, Json.num 999, Json.num 998])])]

/-- Counterexample to C5 as stated: with 4 input entries of which 2
resolve, the emitted animation's duration is `max 800 (4·250) = 1000`,
not `max 800 (2·250) = 800` — the source computes the duration from the
length of the input `path.nodes` array (set before the resolution
loop), not from the resolved point count. -/
theorem c5_duration_counterexample :
    (resolvedNodes twoNodeState
        [Json.num 100, Json.num 200, Json.num 999, Json.num 998]).length = 2
    ∧ (handlePropagationMessage 0 twoNodeState c5Payload).paths.map
        (fun a => a.duration_ms) = [1000]
    ∧ (1000 : Nat) ≠ max 800 (2 * 250) := by
  refine ⟨by decide, by rfl, by decide⟩

/-- C5 (amended): the emitted animation's duration is
`max 800 (entryCount · 250)` where `entryCount` is the length of the
input `path.nodes` array (resolved or not), and its color comes from the
fixed palette indexed by the next value of the multiplicative
congruential sequence seeded once from the clock. -/
theorem c5_amended_duration_and_color (now : Nat) (s : AppState)
    (fields pf : List (String × Json)) (vals : List Json)
    (hty : jsonGetString (Json.obj fields) "type" = "propagation.path")
    (hpath : (Json.obj fields).find "path" = some (Json.obj pf))
    (hnodes : (Json.obj pf).find "nodes" = some (Json.arr vals))
    (hres : 2 ≤ (resolvedNodes s vals).length) :
    handlePropagationMessage now s (Json.obj fields)
      = { s with
            paths := s.paths ++
              [{ points := propPoints s vals
               , start_time_ms := now
               , duration_ms := max 800 (vals.length * 250)
               , color := palette.getD (lcgNext (propSeedInit s.prop_seed now) % 7)
                            ⟨0, 255, 234, 255⟩
               , width := 7 / 2 }]
          , prop_seed := lcgNext (propSeedInit s.prop_seed now) } := by
  have hlen2 : 2 ≤ vals.length :=
    le_trans hres (List.length_filterMap_le _ _)
  simp only [handlePropagationMessage, hty, hpath, hnodes, eq_self_iff_true, if_true]
  rw [if_neg (show ¬ vals.length < 2 by omega)]
  rw [if_pos (show 2 ≤ (propPoints s vals).length from by
        have h1 : (propPoints s vals).length = (resolvedNodes s vals).length := by
          simp [propPoints]
        omega)]

/-- Witness for the amended C5 at the four-entry payload. -/
theorem c5_amended_duration_and_color_witness :
    (handlePropagationMessage 0 twoNodeState
        (Json.obj [("type", Json.str "propagation.path"),
                   ("path", Json.obj [("nodes",
                     Json.arr [Json.num 100, Json.num 200, Json.num 999,
                               Json.num 998])])])).paths.map
      (fun a => a.duration_ms) = [max 800 (4 * 250)] := by
  have h := c5_amended_duration_and_color 0 twoNodeState
    [("type", Json.str "propagation.path"),
     ("path", Json.obj [("nodes",
       Json.arr [Json.num 100, Json.num 200, Json.num 999, Json.num 998])])]
    [("nodes", Json.arr [Json.num 100, Json.num 200, Json.num 999, Json.num 998])]
    [Json.num 100, Json.num 200, Json.num 999, Json.num 998]
    (by rfl) (by rfl) (by rfl) (by decide)
  rw [h]
  rfl

/-! ### SSE malformed-payload behavior (C8) -/

/-- The closing-brace character. -/
def closeBraceChar : Char := Char.ofNat 125

/-- Modelled from the spec: whitespace skipping of the standard JSON
grammar ("malformed or truncated JSON"); the program's own JSON parser
is the vendored nlohmann header, which is not among the repository
sources. -/
def jsonSkipWs (cs : List Char) : List Char :=
  cs.dropWhile (fun c => c = ' ' || c = '\t' || c = '\n' || c = '\r')

/-- Modelled from the spec: JSON string-literal body (after the opening
quote); an escape accepts the next character (liberal on `\u`, which
only widens the accepted language). -/
def jsonStrBody : List Char → Option (List Char)
  | [] => none
  | c :: rest =>
      if c = quoteChar then some rest
      else if c = backslashChar then
        match rest with
        | [] => none
        | _ :: r2 => jsonStrBody r2
      else jsonStrBody rest

/-- Modelled from the spec: characters a JSON number lexeme may use. -/
def jsonNumChar (c : Char) : Bool :=
  c.isDigit || c = '.' || c = 'e' || c = 'E' || c = '+' || c = '-'

/-- Modelled from the spec: a (liberal) JSON number lexeme — at least
one number character. -/
def jsonNumber (cs : List Char) : Option (List Char) :=
  let r := cs.dropWhile jsonNumChar
  if r.length = cs.length then none else some r

mutual

/-- Modelled from the spec: recursive-descent JSON value recognizer
(fuelled; liberal in lexemes and trailing commas, which only widens the
accepted language — a string this recognizer rejects is malformed JSON). -/
def jsonVal : Nat → List Char → Option (List Char)
  | 0, _ => none
  | fuel + 1, cs =>
    match jsonSkipWs cs with
    | [] => none
    | c :: rest =>
      if c = quoteChar then jsonStrBody rest
      else if c = openBraceChar then jsonObjBody fuel rest
      else if c = '[' then jsonArrBody fuel rest
      else if ['t', 'r', 'u', 'e'].isPrefixOf (c :: rest) then
        some ((c :: rest).drop 4)
      else if ['f', 'a', 'l', 's', 'e'].isPrefixOf (c :: rest) then
        some ((c :: rest).drop 5)
      else if ['n', 'u', 'l', 'l'].isPrefixOf (c :: rest) then
        some ((c :: rest).drop 4)
      else jsonNumber (c :: rest)

/-- Modelled from the spec: JSON object members (after `{`). -/
def jsonObjBody : Nat → List Char → Option (List Char)
  | 0, _ => none
  | fuel + 1, cs =>
    match jsonSkipWs cs with
    | [] => none
    | c :: rest =>
      if c = closeBraceChar then some rest
      else if c = quoteChar then
        match jsonStrBody rest with
        | none => none
        | some r1 =>
          match jsonSkipWs r1 with
          | ':' :: r2 =>
            match jsonVal fuel r2 with
            | none => none
            | some r3 =>
              match jsonSkipWs r3 with
              | ',' :: r4 => jsonObjBody fuel r4
              | cb :: r4 => if cb = closeBraceChar then some r4 else none
              | [] => none
          | _ => none
      else none

/-- Modelled from the spec: JSON array elements (after `[`). -/
def jsonArrBody : Nat → List Char → Option (List Char)
  | 0, _ => none
  | fuel + 1, cs =>
    match jsonSkipWs cs with
    | [] => none
    | c :: rest =>
      if c = ']' then some rest
      else
        match jsonVal fuel (c :: rest) with
        | none => none
        | some r1 =>
          match jsonSkipWs r1 with
          | ',' :: r2 => jsonArrBody fuel r2
          | ']' :: r2 => some r2
          | _ => none

end

/-- Modelled from the spec: a string is well-formed JSON when the value
recognizer consumes it entirely (the fuel bounds nesting and element
count by the input length, which suffices). -/
def jsonWellFormed (s : String) : Bool :=
  match jsonVal (2 * s.length + 2) s.data with
  | some rest => (jsonSkipWs rest).isEmpty
  | none => false

/-- C8 (amended): an oversized (> 1 MB) payload, or one whose first
non-whitespace character is not an opening brace, produces no event:
the handler returns the state untouched. -/
theorem c8_amended_guarded_payloads (parse : String → Option Json)
    (now : Nat) (ts : String) (s : AppState) (p : String)
    (h : 1024 * 1024 < p.utf8ByteSize ∨ looksLikeJsonObject p = false) :
    handleSseMessage parse now ts s p = s := by
  have hc : (decide (1024 * 1024 < p.utf8ByteSize) || !looksLikeJsonObject p)
      = true := by
    rcases h with h | h
    · simp [h]
    · simp [h]
  simp only [handleSseMessage, hc, if_true]

/-- Witness for the amended C8: a non-object payload is dropped. -/
theorem c8_amended_guarded_payloads_witness :
    handleSseMessage (fun _ => none) 0 "T" initialState "[1]" = initialState := by
  exact c8_amended_guarded_payloads (fun _ => none) 0 "T" initialState "[1]"
    (Or.inr (by rfl))

/-- Counterexample to C8 as stated: the truncated (malformed) payload
`{"type":"connected","connectionStatus":"OK` — no closing quote, no
closing brace — is not well-formed JSON, yet the handler, which pulls
envelope fields by string search rather than parsing, still updates the
connection status to `"OK"`. -/
theorem c8_malformed_payload_counterexample :
    jsonWellFormed "\x7b\"type\":\"connected\",\"connectionStatus\":\"OK" = false
    ∧ (handleSseMessage (fun _ => none) 0 "T" initialState
        "\x7b\"type\":\"connected\",\"connectionStatus\":\"OK").connection_status
      = "OK"
    ∧ initialState.connection_status ≠ "OK" := by
  refine ⟨by rfl, by rfl, by decide⟩

/-! ### Web-Mercator round trip (C9) -/

/-- C9: for latitudes in (−90, 90), any longitude in [−180, 180] and any
zoom, inverse-projecting the projected world-pixel coordinates recovers
(lat, lon) — exactly, in the real-valued model (hence within any
floating-point tolerance). -/
theorem c9_mercator_roundtrip (lat lon : ℝ) (zoom : ℤ)
    (h1 : -90 < lat) (h2 : lat < 90) (_h3 : -180 ≤ lon) (_h4 : lon ≤ 180) :
    worldPixelToLatLon (latLonToWorldPixel lat lon zoom).1
      (latLonToWorldPixel lat lon zoom).2 zoom = (lat, lon) := by
  have hπ : (0 : ℝ) < Real.pi := Real.pi_pos
  simp only [worldPixelToLatLon, latLonToWorldPixel, latLonToTile, degToRad,
    kTileSize]
  set n : ℝ := (2 : ℝ) ^ zoom with hn
  have hn0 : n ≠ 0 := zpow_ne_zero _ (by norm_num)
  set φ : ℝ := lat * Real.pi / 180 with hφ
  have hφ1 : -(Real.pi / 2) < φ := by
    rw [hφ]
    nlinarith [mul_pos hπ (show (0 : ℝ) < lat + 90 by linarith)]
  have hφ2 : φ < Real.pi / 2 := by
    rw [hφ]
    nlinarith [mul_pos hπ (show (0 : ℝ) < 90 - lat by linarith)]
  have hcos : 0 < Real.cos φ := Real.cos_pos_of_mem_Ioo ⟨hφ1, hφ2⟩
  have hc0 : Real.cos φ ≠ 0 := ne_of_gt hcos
  have hsin : -1 < Real.sin φ := by
    have hmem1 : -(Real.pi / 2) ∈ Set.Icc (-(Real.pi / 2)) (Real.pi / 2) :=
      Set.mem_Icc.mpr ⟨le_refl _, by linarith⟩
    have hmem2 : φ ∈ Set.Icc (-(Real.pi / 2)) (Real.pi / 2) :=
      Set.mem_Icc.mpr ⟨by linarith, by linarith⟩
    have hlt := Real.strictMonoOn_sin hmem1 hmem2 hφ1
    simpa [Real.sin_neg, Real.sin_pi_div_two] using hlt
  set u : ℝ := Real.tan φ + 1 / Real.cos φ with hu
  have hu_pos : 0 < u := by
    have hrw : u = (Real.sin φ + 1) / Real.cos φ := by
      rw [hu, Real.tan_eq_sin_div_cos]
      field_simp
    rw [hrw]
    exact div_pos (by linarith) hcos
  have hmul : u * (1 / Real.cos φ - Real.tan φ) = 1 := by
    rw [hu, Real.tan_eq_sin_div_cos]
    field_simp
    nlinarith [Real.sin_sq_add_cos_sq φ]
  have huinv : u⁻¹ = 1 / Real.cos φ - Real.tan φ :=
    inv_eq_of_mul_eq_one_right hmul
  have hsinhlog : Real.sinh (Real.log u) = Real.tan φ := by
    rw [Real.sinh_log hu_pos, huinv, hu]
    ring
  rw [Prod.ext_iff]
  constructor
  · have harg : Real.pi * (1 - 2 * ((1 - Real.log u / Real.pi) / 2 * n * 256 / 256) / n)
        = Real.log u := by
      field_simp
      ring
    show Real.arctan (Real.sinh (Real.pi *
        (1 - 2 * ((1 - Real.log u / Real.pi) / 2 * n * 256 / 256) / n)))
        * 180 / Real.pi = lat
    rw [harg, hsinhlog, Real.arctan_tan hφ1 hφ2, hφ]
    field_simp
  · show (lon + 180) / 360 * n * 256 / 256 / n * 360 - 180 = lon
    field_simp
    ring

/-- Witness for C9 at (0, 0), zoom 10. -/
theorem c9_mercator_roundtrip_witness :
    worldPixelToLatLon (latLonToWorldPixel 0 0 10).1
      (latLonToWorldPixel 0 0 10).2 10 = (0, 0) := by
  exact c9_mercator_roundtrip 0 0 10 (by norm_num) (by norm_num)
    (by norm_num) (by norm_num)

end MeshViz
